import Mathlib

/-!
Verification of the BlockRun usage-report aggregation core
(`generate_reports.py`).

The aggregation engine (`aggregate`) and the timeline part of the
presentation mapper (`chart_data`) are shallowly embedded below.
Python floats are modelled by exact rationals (`ℚ`); JSON objects with
possibly-missing fields become a structure of `Option` fields, read
through `Option.getD`, mirroring `e.get(field, default)`.  Python dicts
(`defaultdict`) preserve insertion order, so they are embedded as
association lists where an update keeps an existing key in place and
appends a fresh key at the end (`upsert`).  `list.sort(key=…,
reverse=True)` is a stable descending sort; `sortDesc` below is the
stable insertion sort realizing exactly that order (stable sorts under
the same comparator agree pointwise).  The standard-library timestamp
parser `datetime.fromisoformat` is external to the repository, so the
embedding is parameterized by an arbitrary parser `String → Option
PyDateTime`; all theorems hold for every parser.
-/

namespace BlockRun

/-- One JSON usage record; every field may be absent, exactly as the
Python code assumes when it reads fields with `e.get(key, default)`. -/
structure UsageRecord where
  cost : Option ℚ
  baselineCost : Option ℚ
  latencyMs : Option ℚ
  model : Option String
  tier : Option String
  timestamp : Option String
  inputTokens : Option ℕ
  outputTokens : Option ℕ
deriving DecidableEq, Repr

/-- The components of a parsed datetime that the aggregation code
actually consumes via `strftime` (`%H:%M` and `%m-%d`). -/
structure PyDateTime where
  month : ℕ
  day : ℕ
  hour : ℕ
  minute : ℕ
deriving DecidableEq, Repr

/-- Zero-padding to two digits, as produced by `strftime` fields. -/
def pad2 (n : ℕ) : String := if n < 10 then "0" ++ toString n else toString n

/-- `dt.strftime("%H:%M")`. -/
def strftimeHM (dt : PyDateTime) : String := pad2 dt.hour ++ ":" ++ pad2 dt.minute

/-- `dt.strftime("%m-%d")`. -/
def strftimeMD (dt : PyDateTime) : String := pad2 dt.month ++ "-" ++ pad2 dt.day

/-- One entry of the `MODEL_COLORS` palette (hex / soft / rgb strings). -/
structure ColorEntry where
  hex : String
  soft : String
  rgb : String
deriving DecidableEq, Repr

/-- The pastel `MODEL_COLORS` palette: five color slots keyed 0..4. -/
def MODEL_COLORS : List (ℕ × ColorEntry) :=
  [(0, ⟨"#6ee7df", "rgba(110,231,223,0.18)", "110,231,223"⟩),
   (1, ⟨"#f5c97e", "rgba(245,201,126,0.18)", "245,201,126"⟩),
   (2, ⟨"#d4a0c8", "rgba(212,160,200,0.18)", "212,160,200"⟩),
   (3, ⟨"#93c5fd", "rgba(147,197,253,0.18)", "147,197,253"⟩),
   (4, ⟨"#86efac", "rgba(134,239,172,0.18)", "134,239,172"⟩)]

/-- Update of an insertion-ordered dictionary (Python dict semantics):
if the key is present its value is transformed in place, otherwise the
key is appended at the end bound to `f init` (for a `defaultdict`,
`init` is the default and `f` the mutation applied to `d[k]`). -/
def upsert {β : Type} (l : List (String × β)) (k : String) (init : β) (f : β → β) :
    List (String × β) :=
  match l with
  | [] => [(k, f init)]
  | (k1, v) :: t => if k1 = k then (k1, f v) :: t else (k1, v) :: upsert t k init f

/-- The per-model accumulator built by the `by_model` loop. -/
structure ModelAcc where
  count : ℕ
  cost : ℚ
  baseline : ℚ
  latencies : List ℚ
  input_tokens : ℕ
  output_tokens : ℕ
deriving DecidableEq, Repr

/-- Initial value of a `by_model` group (`defaultdict` default). -/
def mInit : ModelAcc := ⟨0, 0, 0, [], 0, 0⟩

/-- One iteration of the `by_model` accumulation loop applied to the
group of record `e`. -/
def mStep (e : UsageRecord) (v : ModelAcc) : ModelAcc :=
  { count := v.count + 1
    cost := v.cost + e.cost.getD 0
    baseline := v.baseline + e.baselineCost.getD 0
    latencies := v.latencies ++ [e.latencyMs.getD 0]
    input_tokens := v.input_tokens + e.inputTokens.getD 0
    output_tokens := v.output_tokens + e.outputTokens.getD 0 }

/-- The `by_model` grouping: a `defaultdict` keyed by
`e.get("model", "unknown")`, in insertion order of first appearance. -/
def by_model (entries : List UsageRecord) : List (String × ModelAcc) :=
  entries.foldl (fun acc e => upsert acc (e.model.getD "unknown") mInit (mStep e)) []

/-- One row of `models_list` as assembled inside the `enumerate` loop. -/
structure ModelStat where
  model : String
  short : String
  count : ℕ
  cost : ℚ
  baseline : ℚ
  savings : ℚ
  savings_pct : ℚ
  avg_latency : ℚ
  input_tokens : ℕ
  output_tokens : ℕ
  total_tokens : ℕ
  color_idx : ℕ
deriving DecidableEq, Repr

/-- Builds the `ModelStat` row for group `(model, v)` at enumeration
index `i` (the body of the `for i, (model, v) in enumerate(...)` loop). -/
def mkStat (i : ℕ) (model : String) (v : ModelAcc) : ModelStat :=
  { model := model
    short := (model.splitOn "/").getLastD model
    count := v.count
    cost := v.cost
    baseline := v.baseline
    savings := max 0 (v.baseline - v.cost)
    savings_pct :=
      if 0 < v.baseline then max 0 (v.baseline - v.cost) / v.baseline * 100 else 0
    avg_latency :=
      if v.latencies = [] then 0 else v.latencies.sum / (v.latencies.length : ℚ)
    input_tokens := v.input_tokens
    output_tokens := v.output_tokens
    total_tokens := v.input_tokens + v.output_tokens
    color_idx := i % MODEL_COLORS.length }

/-- The `enumerate(by_model.items())` loop producing the unsorted
`models_list`, carrying the running index `i`. -/
def mkStats : ℕ → List (String × ModelAcc) → List ModelStat
  | _, [] => []
  | i, (model, v) :: t => mkStat i model v :: mkStats (i + 1) t

/-- Stable descending insertion by cost: the new row goes after every
already-placed row of greater-or-equal cost, exactly the order produced
by Python's stable `models_list.sort(key=cost, reverse=True)`. -/
def insDesc (x : ModelStat) : List ModelStat → List ModelStat
  | [] => [x]
  | y :: t => if y.cost < x.cost then x :: y :: t else y :: insDesc x t

/-- `models_list.sort(key=lambda x: x["cost"], reverse=True)` as a
stable descending sort (insertion from the left preserves the relative
order of cost ties). -/
def sortDesc (l : List ModelStat) : List ModelStat :=
  l.foldl (fun acc x => insDesc x acc) []

/-- The final sorted `models_list` of `aggregate`. -/
def models_list (entries : List UsageRecord) : List ModelStat :=
  sortDesc (mkStats 0 (by_model entries))

/-- `has_tokens`: set when any model group carries a positive token
total (equivalent to the flag raised inside the enumeration loop). -/
def has_tokens (entries : List UsageRecord) : Bool :=
  (by_model entries).any fun kv => 0 < kv.2.input_tokens + kv.2.output_tokens

/-- The per-tier accumulator of the `by_tier` loop. -/
structure TierAcc where
  count : ℕ
  cost : ℚ
deriving DecidableEq, Repr

/-- The `by_tier` grouping keyed by `e.get("tier", "UNKNOWN")`. -/
def by_tier (entries : List UsageRecord) : List (String × TierAcc) :=
  entries.foldl
    (fun acc e =>
      upsert acc (e.tier.getD "UNKNOWN") ⟨0, 0⟩
        fun v => ⟨v.count + 1, v.cost + e.cost.getD 0⟩)
    []

/-- `timeline[bucket][model] : float`, nested insertion-ordered dicts. -/
abbrev Timeline := List (String × List (String × ℚ))

/-- One iteration of the timeline loop: parse the (possibly absent)
timestamp after the `Z → +00:00` substitution; on failure the record is
skipped (`except: pass`), otherwise its cost is accumulated under the
minute bucket (`%H:%M`) for a daily scope or the day bucket (`%m-%d`)
for the `"global"` scope. -/
def tStep (parse : String → Option PyDateTime) (label : String)
    (acc : Timeline) (e : UsageRecord) : Timeline :=
  match parse ((e.timestamp.getD "").replace "Z" "+00:00") with
  | none => acc
  | some dt =>
    let bucket := if label ≠ "global" then strftimeHM dt else strftimeMD dt
    upsert acc bucket []
      fun inner => upsert inner (e.model.getD "unknown") 0 fun c => c + e.cost.getD 0

/-- The timeline mapping of `aggregate`. -/
def timeline (parse : String → Option PyDateTime) (label : String)
    (entries : List UsageRecord) : Timeline :=
  entries.foldl (tStep parse label) []

/-- Python `int(q)`: truncation toward zero. -/
def pyInt (q : ℚ) : ℤ := if 0 ≤ q then ⌊q⌋ else ⌈q⌉

/-- The latency-histogram index `min(int(e.get("latencyMs", 0) / 2000), 9)`
(an integer: Python list indexing would wrap a negative value). -/
def latIdxZ (e : UsageRecord) : ℤ := min (pyInt (e.latencyMs.getD 0 / 2000)) 9

/-- `l[i] += 1` with Python list-index semantics: a negative index counts
from the end.  (Python raises IndexError outside `[-len, len)`; every
index reached by the histogram loop on the spec's domain of non-negative
latencies lies in `[0, 9]`.) -/
def pyIncrAt (l : List ℕ) (i : ℤ) : List ℕ :=
  let j : ℤ := if i < 0 then i + l.length else i
  l.set j.toNat (l.getD j.toNat 0 + 1)

/-- The 10-bucket latency histogram `lat_buckets` (2000 ms wide buckets,
saturating at index 9). -/
def lat_buckets (entries : List UsageRecord) : List ℕ :=
  entries.foldl (fun acc e => pyIncrAt acc (latIdxZ e)) (List.replicate 10 0)

/-- `sum(e.get("cost", 0) for e in entries)`. -/
def total_cost (entries : List UsageRecord) : ℚ :=
  (entries.map fun e => e.cost.getD 0).sum

/-- `sum(e.get("baselineCost", 0) for e in entries)`. -/
def total_baseline (entries : List UsageRecord) : ℚ :=
  (entries.map fun e => e.baselineCost.getD 0).sum

/-- `sum(e.get("latencyMs", 0) for e in entries) / max(total_requests, 1)`. -/
def avg_latency (entries : List UsageRecord) : ℚ :=
  (entries.map fun e => e.latencyMs.getD 0).sum / ((max entries.length 1 : ℕ) : ℚ)

/-- `real_savings = max(0.0, total_baseline - total_cost)`. -/
def real_savings (entries : List UsageRecord) : ℚ :=
  max 0 (total_baseline entries - total_cost entries)

/-- `savings_rate = max(0.0, min((real_savings / total_baseline * 100) if
total_baseline > 0 else 0, 100.0))`. -/
def savings_rate (entries : List UsageRecord) : ℚ :=
  max 0 (min
    (if 0 < total_baseline entries
      then real_savings entries / total_baseline entries * 100 else 0)
    100)

/-- The aggregate of one period, exactly the dict returned by
`aggregate` on a non-empty record set. -/
structure AggregatedPeriod where
  label : String
  total_cost : ℚ
  total_baseline : ℚ
  real_savings : ℚ
  total_requests : ℕ
  avg_latency : ℚ
  savings_rate : ℚ
  models : List ModelStat
  has_tokens : Bool
  by_tier : List (String × TierAcc)
  timeline : Timeline
  lat_buckets : List ℕ
deriving DecidableEq, Repr

/-- `aggregate(entries, label)`: `None` on an empty record set,
otherwise the assembled `AggregatedPeriod`. -/
def aggregate (parse : String → Option PyDateTime) (entries : List UsageRecord)
    (label : String) : Option AggregatedPeriod :=
  if entries = [] then none
  else some
    { label := label
      total_cost := total_cost entries
      total_baseline := total_baseline entries
      real_savings := real_savings entries
      total_requests := entries.length
      avg_latency := avg_latency entries
      savings_rate := savings_rate entries
      models := models_list entries
      has_tokens := has_tokens entries
      by_tier := by_tier entries
      timeline := timeline parse label entries
      lat_buckets := lat_buckets entries }

/-- Ascending insertion for strings (Python `sorted`). -/
def insStr (x : String) : List String → List String
  | [] => [x]
  | y :: t => if x ≤ y then x :: y :: t else y :: insStr x t

/-- `sorted(keys)`: ascending sort of the timeline bucket keys. -/
def sortStr (l : List String) : List String :=
  l.foldl (fun acc x => insStr x acc) []

/-- `all_times = sorted(data["timeline"].keys())` in `chart_data`. -/
def all_times (tl : Timeline) : List String := sortStr (tl.map Prod.fst)

/-- Round-half-to-even to an integer, the rounding mode of Python's
built-in `round`. -/
def roundHalfEven (q : ℚ) : ℤ :=
  if q - ⌊q⌋ < 1 / 2 then ⌊q⌋
  else if 1 / 2 < q - ⌊q⌋ then ⌊q⌋ + 1
  else if ⌊q⌋ % 2 = 0 then ⌊q⌋ else ⌊q⌋ + 1

/-- Python `round(q, n)` (idealized over exact rationals). -/
def pyRound (q : ℚ) (n : ℕ) : ℚ := (roundHalfEven (q * 10 ^ n) : ℚ) / 10 ^ n

/-- The timeline series of one model in `chart_data`:
`[round(data["timeline"].get(t, {}).get(model, 0), 6) for t in all_times]`. -/
def tl_vals (tl : Timeline) (model : String) : List ℚ :=
  (all_times tl).map fun t =>
    pyRound (((List.lookup t tl).getD []).lookup model |>.getD 0) 6

/-- The distinct models of a record set in order of first appearance
(the key order of the insertion-ordered `by_model` dict). -/
def firstSeenModels (entries : List UsageRecord) : List String :=
  entries.foldl
    (fun acc e =>
      if e.model.getD "unknown" ∈ acc then acc else acc ++ [e.model.getD "unknown"])
    []

/-! ## Facts about ordered-dictionary updates -/

theorem upsert_keys {β : Type} (l : List (String × β)) (k : String) (init : β)
    (f : β → β) :
    (upsert l k init f).map Prod.fst =
      if k ∈ l.map Prod.fst then l.map Prod.fst else l.map Prod.fst ++ [k] := by
  induction l with
  | nil => simp [upsert]
  | cons hd t ih =>
    obtain ⟨k1, v⟩ := hd
    by_cases h : k1 = k
    · subst h
      simp [upsert]
    · simp only [upsert, if_neg h, List.map_cons, ih]
      by_cases hm : k ∈ t.map Prod.fst
      · simp [hm, h, Ne.symm h]
      · simp [hm, h, Ne.symm h]

theorem upsert_keys_nodup {β : Type} (l : List (String × β)) (k : String) (init : β)
    (f : β → β) (h : (l.map Prod.fst).Nodup) :
    ((upsert l k init f).map Prod.fst).Nodup := by
  rw [upsert_keys]
  split
  · exact h
  · simp_all [List.nodup_append]

theorem upsert_cons_eq {β : Type} (k1 : String) (v : β) (t : List (String × β))
    (k : String) (init : β) (f : β → β) (h : k1 = k) :
    upsert ((k1, v) :: t) k init f = (k1, f v) :: t := by
  simp [upsert, h]

theorem upsert_cons_ne {β : Type} (k1 : String) (v : β) (t : List (String × β))
    (k : String) (init : β) (f : β → β) (h : ¬ k1 = k) :
    upsert ((k1, v) :: t) k init f = (k1, v) :: upsert t k init f := by
  simp [upsert, h]

theorem upsert_sum {β M : Type} [AddCommMonoid M] (μ : β → M) (d : M)
    (l : List (String × β)) (k : String) (init : β) (f : β → β)
    (hf : ∀ v, μ (f v) = μ v + d) (h0 : μ init = 0) :
    ((upsert l k init f).map fun kv => μ kv.2).sum
      = ((l.map fun kv => μ kv.2).sum) + d := by
  induction l with
  | nil => simp [upsert, hf, h0]
  | cons hd t ih =>
    obtain ⟨k1, v⟩ := hd
    by_cases h : k1 = k
    · rw [upsert_cons_eq k1 v t k init f h]
      simp only [List.map_cons, List.sum_cons, hf]
      exact add_right_comm _ _ _
    · rw [upsert_cons_ne k1 v t k init f h]
      simp only [List.map_cons, List.sum_cons, ih]
      exact (add_assoc _ _ _).symm

theorem upsert_forall {β : Type} (P : β → Prop) (l : List (String × β)) (k : String)
    (init : β) (f : β → β) (hl : ∀ kv ∈ l, P kv.2) (hf : ∀ v, P v → P (f v))
    (hinit : P (f init)) : ∀ kv ∈ upsert l k init f, P kv.2 := by
  induction l with
  | nil =>
    intro kv hkv
    simp only [upsert, List.mem_singleton] at hkv
    subst hkv
    exact hinit
  | cons hd t ih =>
    obtain ⟨k1, v⟩ := hd
    intro kv hkv
    by_cases h : k1 = k
    · rw [upsert_cons_eq k1 v t k init f h] at hkv
      rcases List.mem_cons.mp hkv with h2 | h2
      · subst h2
        exact hf v (hl (k1, v) (List.mem_cons_self _ _))
      · exact hl kv (List.mem_cons_of_mem _ h2)
    · rw [upsert_cons_ne k1 v t k init f h] at hkv
      rcases List.mem_cons.mp hkv with h2 | h2
      · subst h2
        exact hl (k1, v) (List.mem_cons_self _ _)
      · exact ih (fun kv h3 => hl kv (List.mem_cons_of_mem _ h3)) kv h2

/-! ## Facts about the per-model grouping -/

theorem by_model_count_sum_aux (l : List UsageRecord) :
    ∀ acc : List (String × ModelAcc),
      ((l.foldl (fun acc e => upsert acc (e.model.getD "unknown") mInit (mStep e))
          acc).map fun kv => kv.2.count).sum
        = ((acc.map fun kv => kv.2.count).sum) + l.length := by
  induction l with
  | nil => intro acc; simp
  | cons e t ih =>
    intro acc
    simp only [List.foldl_cons, ih, List.length_cons]
    rw [upsert_sum (fun v : ModelAcc => v.count) 1 acc _ mInit (mStep e)
      (fun v => rfl) rfl]
    omega

theorem by_model_count_sum (entries : List UsageRecord) :
    ((by_model entries).map fun kv => kv.2.count).sum = entries.length := by
  simpa using by_model_count_sum_aux entries []

theorem by_model_cost_sum_aux (l : List UsageRecord) :
    ∀ acc : List (String × ModelAcc),
      ((l.foldl (fun acc e => upsert acc (e.model.getD "unknown") mInit (mStep e))
          acc).map fun kv => kv.2.cost).sum
        = ((acc.map fun kv => kv.2.cost).sum) + total_cost l := by
  induction l with
  | nil => intro acc; simp [total_cost]
  | cons e t ih =>
    intro acc
    simp only [List.foldl_cons, ih]
    rw [upsert_sum (fun v : ModelAcc => v.cost) (e.cost.getD 0) acc _ mInit (mStep e)
      (fun v => rfl) rfl]
    simp only [total_cost, List.map_cons, List.sum_cons]
    ring

theorem by_model_cost_sum (entries : List UsageRecord) :
    ((by_model entries).map fun kv => kv.2.cost).sum = total_cost entries := by
  simpa using by_model_cost_sum_aux entries []

theorem by_model_cost_nonneg_aux (l : List UsageRecord)
    (hl : ∀ e ∈ l, 0 ≤ e.cost.getD 0) :
    ∀ acc : List (String × ModelAcc), (∀ kv ∈ acc, 0 ≤ kv.2.cost) →
      ∀ kv ∈ l.foldl (fun acc e => upsert acc (e.model.getD "unknown") mInit (mStep e))
          acc, 0 ≤ kv.2.cost := by
  induction l with
  | nil => intro acc hacc; simpa using hacc
  | cons e t ih =>
    intro acc hacc
    simp only [List.foldl_cons]
    have he : 0 ≤ e.cost.getD 0 := hl e (List.mem_cons_self _ _)
    refine ih (fun x hx => hl x (List.mem_cons_of_mem _ hx)) _ ?_
    exact upsert_forall (fun v => 0 ≤ v.cost) acc _ mInit (mStep e) hacc
      (fun v hv => add_nonneg hv he) (by simpa [mInit, mStep] using he)

theorem by_model_cost_nonneg (entries : List UsageRecord)
    (h : ∀ e ∈ entries, 0 ≤ e.cost.getD 0) :
    ∀ kv ∈ by_model entries, 0 ≤ kv.2.cost :=
  by_model_cost_nonneg_aux entries h [] (by simp)

theorem by_model_keys_aux (l : List UsageRecord) :
    ∀ acc : List (String × ModelAcc),
      (l.foldl (fun acc e => upsert acc (e.model.getD "unknown") mInit (mStep e))
          acc).map Prod.fst
        = l.foldl
            (fun a e =>
              if e.model.getD "unknown" ∈ a then a else a ++ [e.model.getD "unknown"])
            (acc.map Prod.fst) := by
  induction l with
  | nil => intro acc; simp
  | cons e t ih =>
    intro acc
    simp only [List.foldl_cons, ih, upsert_keys]

theorem by_model_keys (entries : List UsageRecord) :
    (by_model entries).map Prod.fst = firstSeenModels entries := by
  simpa [firstSeenModels] using by_model_keys_aux entries []

theorem firstSeenModels_nodup_aux (l : List UsageRecord) :
    ∀ acc : List String, acc.Nodup →
      (l.foldl
          (fun a e =>
            if e.model.getD "unknown" ∈ a then a else a ++ [e.model.getD "unknown"])
          acc).Nodup := by
  induction l with
  | nil => intro acc h; simpa using h
  | cons e t ih =>
    intro acc h
    simp only [List.foldl_cons]
    refine ih _ ?_
    by_cases hm : e.model.getD "unknown" ∈ acc
    · simpa [hm] using h
    · simp [hm, List.nodup_append, h]

theorem firstSeenModels_nodup (entries : List UsageRecord) :
    (firstSeenModels entries).Nodup :=
  firstSeenModels_nodup_aux entries [] (by simp)

/-! ## Facts about the enumeration loop -/

theorem mkStats_map {γ : Type} (g : ModelStat → γ) (g2 : String × ModelAcc → γ)
    (h : ∀ i k v, g (mkStat i k v) = g2 (k, v)) :
    ∀ (i : ℕ) (l : List (String × ModelAcc)), (mkStats i l).map g = l.map g2 := by
  intro i l
  induction l generalizing i with
  | nil => rfl
  | cons hd t ih =>
    obtain ⟨k, v⟩ := hd
    simp [mkStats, h, ih]

theorem mkStats_mem : ∀ (i : ℕ) (l : List (String × ModelAcc)) (m : ModelStat),
    m ∈ mkStats i l →
      ∃ j k v, l[j]? = some (k, v) ∧ m = mkStat (i + j) k v := by
  intro i l
  induction l generalizing i with
  | nil => intro m hm; simp [mkStats] at hm
  | cons hd t ih =>
    obtain ⟨k0, v0⟩ := hd
    intro m hm
    rcases List.mem_cons.mp hm with h2 | h2
    · exact ⟨0, k0, v0, by simp, by simpa using h2⟩
    · obtain ⟨j, k, v, hj, hv⟩ := ih (i + 1) m h2
      exact ⟨j + 1, k, v, by simpa using hj, by rw [hv]; ring_nf⟩

/-! ## Facts about the stable descending sort -/

theorem insDesc_perm (x : ModelStat) (l : List ModelStat) :
    List.Perm (insDesc x l) (x :: l) := by
  induction l with
  | nil => simp [insDesc]
  | cons y t ih =>
    by_cases h : y.cost < x.cost
    · simp [insDesc, h]
    · simp only [insDesc, if_neg h]
      exact (ih.cons y).trans (List.Perm.swap x y t)

theorem sortDesc_perm_aux (l : List ModelStat) :
    ∀ acc : List ModelStat,
      List.Perm (l.foldl (fun acc x => insDesc x acc) acc) (acc ++ l) := by
  induction l with
  | nil => intro acc; simp
  | cons x t ih =>
    intro acc
    simp only [List.foldl_cons]
    refine (ih (insDesc x acc)).trans ?_
    refine (((insDesc_perm x acc).append_right t).trans ?_)
    exact List.perm_middle.symm

theorem sortDesc_perm (l : List ModelStat) : List.Perm (sortDesc l) l := by
  simpa using sortDesc_perm_aux l []

/-- Sortedness by descending cost. -/
def SortedD (l : List ModelStat) : Prop :=
  List.Pairwise (fun a b => b.cost ≤ a.cost) l

theorem insDesc_sorted (x : ModelStat) {l : List ModelStat} (h : SortedD l) :
    SortedD (insDesc x l) := by
  induction l with
  | nil => simp [insDesc, SortedD]
  | cons y t ih =>
    rcases (List.pairwise_cons.mp h) with ⟨hy, ht⟩
    by_cases hc : y.cost < x.cost
    · have hall : ∀ z ∈ y :: t, z.cost ≤ x.cost := by
        intro z hz
        rcases List.mem_cons.mp hz with rfl | hz
        · exact le_of_lt hc
        · exact le_trans (hy z hz) (le_of_lt hc)
      have hx : SortedD (x :: y :: t) := List.pairwise_cons.mpr ⟨hall, h⟩
      simpa [insDesc, hc, SortedD] using hx
    · have hs : SortedD (y :: insDesc x t) := by
        refine List.pairwise_cons.mpr ⟨?_, ih ht⟩
        intro z hz
        rcases List.mem_cons.mp ((insDesc_perm x t).mem_iff.mp hz) with rfl | h2
        · exact le_of_not_lt hc
        · exact hy z h2
      simpa [insDesc, hc, SortedD] using hs

theorem sortDesc_sorted_aux (l : List ModelStat) :
    ∀ acc : List ModelStat, SortedD acc →
      SortedD (l.foldl (fun acc x => insDesc x acc) acc) := by
  induction l with
  | nil => intro acc h; simpa using h
  | cons x t ih =>
    intro acc h
    simp only [List.foldl_cons]
    exact ih _ (insDesc_sorted x h)

theorem sortDesc_sorted (l : List ModelStat) : SortedD (sortDesc l) :=
  sortDesc_sorted_aux l [] (by simp [SortedD])

theorem filter_eq_nil_of_lt {l : List ModelStat} {c : ℚ} (hs : SortedD l)
    (hlt : ∀ z ∈ l.head?, z.cost < c) :
    l.filter (fun m => decide (m.cost = c)) = [] := by
  cases l with
  | nil => rfl
  | cons y t =>
    have hy : y.cost < c := hlt y rfl
    refine List.filter_eq_nil_iff.mpr ?_
    intro a ha
    rcases List.mem_cons.mp ha with rfl | ha
    · simp [ne_of_lt hy]
    · have : a.cost ≤ y.cost := (List.pairwise_cons.mp hs).1 a ha
      simp [ne_of_lt (lt_of_le_of_lt this hy)]

theorem insDesc_filter (x : ModelStat) {l : List ModelStat} (hs : SortedD l) (c : ℚ) :
    (insDesc x l).filter (fun m => decide (m.cost = c)) =
      if x.cost = c then l.filter (fun m => decide (m.cost = c)) ++ [x]
      else l.filter (fun m => decide (m.cost = c)) := by
  induction l with
  | nil =>
    by_cases hx : x.cost = c <;> simp [insDesc, hx]
  | cons y t ih =>
    rcases (List.pairwise_cons.mp hs) with ⟨hy, ht⟩
    by_cases hc : y.cost < x.cost
    · by_cases hx : x.cost = c
      · have hnil : (y :: t).filter (fun m => decide (m.cost = c)) = [] := by
          refine filter_eq_nil_of_lt hs ?_
          intro z hz
          simp only [List.head?_cons, Option.mem_def, Option.some.injEq] at hz
          subst hz
          exact hx ▸ hc
        rw [show insDesc x (y :: t) = x :: y :: t from by simp [insDesc, hc]]
        simp [hx, hnil, List.filter_cons]
      · rw [show insDesc x (y :: t) = x :: y :: t from by simp [insDesc, hc]]
        simp [hx, List.filter_cons]
    · simp only [insDesc, if_neg hc, List.filter_cons, ih ht]
      by_cases hyc : y.cost = c <;> by_cases hx : x.cost = c <;> simp [hyc, hx]

theorem sortDesc_filter_aux (c : ℚ) (l : List ModelStat) :
    ∀ acc : List ModelStat, SortedD acc →
      (l.foldl (fun acc x => insDesc x acc) acc).filter (fun m => decide (m.cost = c))
        = acc.filter (fun m => decide (m.cost = c))
            ++ l.filter (fun m => decide (m.cost = c)) := by
  induction l with
  | nil => intro acc h; simp
  | cons x t ih =>
    intro acc h
    simp only [List.foldl_cons]
    rw [ih _ (insDesc_sorted x h), insDesc_filter x h c]
    by_cases hx : x.cost = c <;> simp [hx, List.filter_cons]

theorem sortDesc_filter (l : List ModelStat) (c : ℚ) :
    (sortDesc l).filter (fun m => decide (m.cost = c))
      = l.filter (fun m => decide (m.cost = c)) := by
  simpa [SortedD] using sortDesc_filter_aux c l [] (by simp [SortedD])

/-! ## Facts about the ascending string sort -/

theorem insStr_perm (x : String) (l : List String) :
    List.Perm (insStr x l) (x :: l) := by
  induction l with
  | nil => simp [insStr]
  | cons y t ih =>
    by_cases h : x ≤ y
    · simp [insStr, h]
    · simp only [insStr, if_neg h]
      exact (ih.cons y).trans (List.Perm.swap x y t)

theorem sortStr_perm_aux (l : List String) :
    ∀ acc : List String,
      List.Perm (l.foldl (fun acc x => insStr x acc) acc) (acc ++ l) := by
  induction l with
  | nil => intro acc; simp
  | cons x t ih =>
    intro acc
    simp only [List.foldl_cons]
    refine (ih (insStr x acc)).trans ?_
    exact ((insStr_perm x acc).append_right t).trans List.perm_middle.symm

theorem sortStr_perm (l : List String) : List.Perm (sortStr l) l := by
  simpa using sortStr_perm_aux l []

theorem insStr_sorted (x : String) {l : List String}
    (h : List.Pairwise (fun a b => a ≤ b) l) :
    List.Pairwise (fun a b => a ≤ b) (insStr x l) := by
  induction l with
  | nil => simp [insStr]
  | cons y t ih =>
    rcases (List.pairwise_cons.mp h) with ⟨hy, ht⟩
    by_cases hc : x ≤ y
    · have hall : ∀ z ∈ y :: t, x ≤ z := by
        intro z hz
        rcases List.mem_cons.mp hz with rfl | hz
        · exact hc
        · exact le_trans hc (hy z hz)
      have hx : List.Pairwise (fun a b => a ≤ b) (x :: y :: t) :=
        List.pairwise_cons.mpr ⟨hall, h⟩
      simpa [insStr, hc] using hx
    · have hs : List.Pairwise (fun a b => a ≤ b) (y :: insStr x t) := by
        refine List.pairwise_cons.mpr ⟨?_, ih ht⟩
        intro z hz
        rcases List.mem_cons.mp ((insStr_perm x t).mem_iff.mp hz) with rfl | h2
        · exact le_of_not_le hc
        · exact hy z h2
      simpa [insStr, hc] using hs

theorem sortStr_sorted_aux (l : List String) :
    ∀ acc : List String, List.Pairwise (fun a b => a ≤ b) acc →
      List.Pairwise (fun a b => a ≤ b) (l.foldl (fun acc x => insStr x acc) acc) := by
  induction l with
  | nil => intro acc h; simpa using h
  | cons x t ih =>
    intro acc h
    simp only [List.foldl_cons]
    exact ih _ (insStr_sorted x h)

theorem sortStr_sorted (l : List String) :
    List.Pairwise (fun a b => a ≤ b) (sortStr l) :=
  sortStr_sorted_aux l [] (by simp)

/-! ## Facts about the timeline and the latency histogram -/

theorem timeline_keys_nodup_aux (parse : String → Option PyDateTime) (label : String)
    (l : List UsageRecord) :
    ∀ acc : Timeline, (acc.map Prod.fst).Nodup →
      ((l.foldl (tStep parse label) acc).map Prod.fst).Nodup := by
  induction l with
  | nil => intro acc h; simpa using h
  | cons e t ih =>
    intro acc h
    simp only [List.foldl_cons]
    refine ih _ ?_
    unfold tStep
    cases parse ((e.timestamp.getD "").replace "Z" "+00:00") with
    | none => exact h
    | some dt => exact upsert_keys_nodup _ _ _ _ h

theorem timeline_keys_nodup (parse : String → Option PyDateTime) (label : String)
    (entries : List UsageRecord) :
    ((timeline parse label entries).map Prod.fst).Nodup :=
  timeline_keys_nodup_aux parse label entries [] (by simp)

theorem pyRound_zero (n : ℕ) : pyRound 0 n = 0 := by
  norm_num [pyRound, roundHalfEven]

theorem pyIncrAt_length (l : List ℕ) (i : ℤ) : (pyIncrAt l i).length = l.length := by
  simp [pyIncrAt]

theorem lat_buckets_length_aux (l : List UsageRecord) :
    ∀ acc : List ℕ,
      (l.foldl (fun acc e => pyIncrAt acc (latIdxZ e)) acc).length = acc.length := by
  induction l with
  | nil => intro acc; rfl
  | cons e t ih =>
    intro acc
    simp only [List.foldl_cons, ih, pyIncrAt_length]

theorem lat_buckets_length (entries : List UsageRecord) :
    (lat_buckets entries).length = 10 := by
  simpa using lat_buckets_length_aux entries (List.replicate 10 0)

theorem latIdxZ_eq (e : UsageRecord) (n : ℕ) (h : e.latencyMs.getD 0 = (n : ℚ)) :
    latIdxZ e = ((min (n / 2000) 9 : ℕ) : ℤ) := by
  have h0 : (0 : ℚ) ≤ (n : ℚ) / 2000 := by positivity
  have h2 : ⌊(n : ℚ) / 2000⌋₊ = n / 2000 := by
    rw [show (2000 : ℚ) = ((2000 : ℕ) : ℚ) by norm_num]
    exact Nat.floor_div_eq_div n 2000
  have h1 : ⌊(n : ℚ) / 2000⌋ = ((n / 2000 : ℕ) : ℤ) := by
    rw [← h2, ← Int.floor_toNat]
    exact (Int.toNat_of_nonneg (Int.floor_nonneg.mpr h0)).symm
  simp only [latIdxZ, pyInt, h, if_pos h0, h1]
  push_cast
  rfl

theorem pyIncrAt_getD_self (l : List ℕ) (k : ℕ) (hk : k < l.length) :
    (pyIncrAt l (k : ℤ)).getD k 0 = l.getD k 0 + 1 := by
  have hneg : ¬ ((k : ℤ) < 0) := by omega
  simp only [pyIncrAt, if_neg hneg, Int.toNat_natCast]
  rw [List.getD_eq_getElem?_getD, List.getElem?_set_eq_of_lt _ hk,
    List.getD_eq_getElem?_getD]
  rfl

theorem pyIncrAt_getD_ne (l : List ℕ) (k j : ℕ) (h : j ≠ k) :
    (pyIncrAt l (k : ℤ)).getD j 0 = l.getD j 0 := by
  have hneg : ¬ ((k : ℤ) < 0) := by omega
  simp only [pyIncrAt, if_neg hneg, Int.toNat_natCast]
  rw [List.getD_eq_getElem?_getD, List.getElem?_set_ne (Ne.symm h),
    List.getD_eq_getElem?_getD]

/-! ## Unfolding the assembled period -/

theorem aggregate_fields (parse : String → Option PyDateTime)
    (entries : List UsageRecord) (label : String) (p : AggregatedPeriod)
    (h : aggregate parse entries label = some p) :
    p.savings_rate = savings_rate entries ∧ p.models = models_list entries ∧
      p.total_requests = entries.length ∧ p.total_cost = total_cost entries ∧
      p.timeline = timeline parse label entries ∧
      p.lat_buckets = lat_buckets entries ∧ p.total_baseline = total_baseline entries ∧
      p.avg_latency = avg_latency entries ∧ p.by_tier = by_tier entries ∧
      p.real_savings = real_savings entries := by
  by_cases he : entries = []
  · simp [aggregate, he] at h
  · simp only [aggregate, if_neg he, Option.some.injEq] at h
    subst h
    exact ⟨rfl, rfl, rfl, rfl, rfl, rfl, rfl, rfl, rfl, rfl⟩

/-! ## Concrete fixtures used by the witness theorems -/

/-- A parser that rejects every timestamp string (one admissible
instantiation of the external `datetime.fromisoformat`). -/
def pfNone : String → Option PyDateTime := fun _ => none

/-- A parser recognizing the two timestamps of the spec's single-day
scenario. -/
def pfDay : String → Option PyDateTime := fun s =>
  if s = "2024-01-01T00:00:00+00:00" then some ⟨1, 1, 9, 0⟩
  else if s = "2024-01-01T00:01:00+00:00" then some ⟨1, 1, 9, 1⟩
  else none

/-- Record of the spec scenario: cost 1, baseline 2, latency 500 ms. -/
def w1 : UsageRecord :=
  ⟨some 1, some 2, some 500, some "x/m1", some "SIMPLE",
    some "2024-01-01T00:00:00Z", none, none⟩

/-- Record of the spec scenario: cost 1, baseline 0.5, latency 1500 ms. -/
def w2 : UsageRecord :=
  ⟨some 1, some (1 / 2), some 1500, some "x/m1", some "SIMPLE",
    some "2024-01-01T00:01:00Z", none, none⟩

/-! ## Claims -/

/-- Claim C1: for every record set, the period-level `savings_rate`
computed by `aggregate` lies in [0, 100]; it equals 0 when the total
baseline cost is 0 or when every record's cost is at least its baseline
cost, and it equals 100 when every record's cost is 0 and the total
baseline cost is positive (real savings being `max 0 (baseline - cost)`). -/
theorem claim_C1_savings_rate_clamped (parse : String → Option PyDateTime)
    (entries : List UsageRecord) (label : String) :
    (∀ p, aggregate parse entries label = some p →
        p.savings_rate = savings_rate entries ∧
        p.real_savings = real_savings entries) ∧
    0 ≤ savings_rate entries ∧ savings_rate entries ≤ 100 ∧
    (total_baseline entries = 0 → savings_rate entries = 0) ∧
    ((∀ e ∈ entries, e.baselineCost.getD 0 ≤ e.cost.getD 0) →
      savings_rate entries = 0) ∧
    ((∀ e ∈ entries, e.cost.getD 0 = 0) → 0 < total_baseline entries →
      savings_rate entries = 100) := by
  refine ⟨?_, ?_, ?_, ?_, ?_, ?_⟩
  · intro p h
    exact ⟨(aggregate_fields parse entries label p h).1,
      (aggregate_fields parse entries label p h).2.2.2.2.2.2.2.2.2⟩
  · exact le_max_left 0 _
  · exact max_le (by norm_num) (min_le_right _ 100)
  · intro h
    rw [savings_rate, h]
    norm_num
  · intro h
    have hle : total_baseline entries ≤ total_cost entries :=
      List.sum_le_sum h
    have hrs : real_savings entries = 0 :=
      max_eq_left (sub_nonpos.mpr hle)
    rw [savings_rate, hrs]
    by_cases h2 : 0 < total_baseline entries
    · rw [if_pos h2]
      norm_num
    · rw [if_neg h2]
      norm_num
  · intro hc htb
    have hct : total_cost entries = 0 := by
      refine List.sum_eq_zero ?_
      intro x hx
      obtain ⟨e, he, rfl⟩ := List.mem_map.mp hx
      exact hc e he
    have hrs : real_savings entries = total_baseline entries := by
      rw [real_savings, hct, sub_zero]
      exact max_eq_right (le_of_lt htb)
    rw [savings_rate, hrs, if_pos htb, div_self (ne_of_gt htb)]
    norm_num

/-- Concrete instantiation of claim C1 at the spec's scenario records. -/
theorem claim_C1_witness :
    (∀ p, aggregate pfDay [w1, w2] "2024-01-01" = some p →
        p.savings_rate = savings_rate [w1, w2] ∧
        p.real_savings = real_savings [w1, w2]) ∧
    0 ≤ savings_rate [w1, w2] ∧ savings_rate [w1, w2] ≤ 100 ∧
    (total_baseline [w1, w2] = 0 → savings_rate [w1, w2] = 0) ∧
    ((∀ e ∈ [w1, w2], e.baselineCost.getD 0 ≤ e.cost.getD 0) →
      savings_rate [w1, w2] = 0) ∧
    ((∀ e ∈ [w1, w2], e.cost.getD 0 = 0) → 0 < total_baseline [w1, w2] →
      savings_rate [w1, w2] = 100) :=
  claim_C1_savings_rate_clamped pfDay [w1, w2] "2024-01-01"

/-- Claim C2: the counts of the per-model stats sum to the period's
total request count, which is the length of the input record list. -/
theorem claim_C2_count_invariant (parse : String → Option PyDateTime)
    (entries : List UsageRecord) (label : String) :
    ((models_list entries).map fun m => m.count).sum = entries.length ∧
    (∀ p, aggregate parse entries label = some p →
      p.models = models_list entries ∧ p.total_requests = entries.length) := by
  constructor
  · have h1 := ((sortDesc_perm (mkStats 0 (by_model entries))).map
      fun m : ModelStat => m.count).sum_eq
    rw [models_list, h1,
      mkStats_map (fun m => m.count) (fun kv => kv.2.count) (fun i k v => rfl)]
    exact by_model_count_sum entries
  · intro p h
    exact ⟨(aggregate_fields parse entries label p h).2.1,
      (aggregate_fields parse entries label p h).2.2.1⟩

/-- Concrete instantiation of claim C2 at the spec's scenario records. -/
theorem claim_C2_witness :
    ((models_list [w1, w2]).map fun m => m.count).sum = [w1, w2].length ∧
    (∀ p, aggregate pfDay [w1, w2] "2024-01-01" = some p →
      p.models = models_list [w1, w2] ∧ p.total_requests = [w1, w2].length) :=
  claim_C2_count_invariant pfDay [w1, w2] "2024-01-01"

/-- Claim C3: the costs of the per-model stats sum to the period's total
cost; over the exact rational embedding the equality is exact. -/
theorem claim_C3_cost_sum_invariant (parse : String → Option PyDateTime)
    (entries : List UsageRecord) (label : String) :
    ((models_list entries).map fun m => m.cost).sum = total_cost entries ∧
    (∀ p, aggregate parse entries label = some p →
      p.models = models_list entries ∧ p.total_cost = total_cost entries) := by
  constructor
  · have h1 := ((sortDesc_perm (mkStats 0 (by_model entries))).map
      fun m : ModelStat => m.cost).sum_eq
    rw [models_list, h1,
      mkStats_map (fun m => m.cost) (fun kv => kv.2.cost) (fun i k v => rfl)]
    exact by_model_cost_sum entries
  · intro p h
    exact ⟨(aggregate_fields parse entries label p h).2.1,
      (aggregate_fields parse entries label p h).2.2.2.1⟩

/-- Concrete instantiation of claim C3 at the spec's scenario records. -/
theorem claim_C3_witness :
    ((models_list [w1, w2]).map fun m => m.cost).sum = total_cost [w1, w2] ∧
    (∀ p, aggregate pfDay [w1, w2] "2024-01-01" = some p →
      p.models = models_list [w1, w2] ∧ p.total_cost = total_cost [w1, w2]) :=
  claim_C3_cost_sum_invariant pfDay [w1, w2] "2024-01-01"

/-- Claim C5: an empty record set yields the `None` sentinel for every
scope label and parser, never a zero-filled period. -/
theorem claim_C5_empty_returns_none (parse : String → Option PyDateTime)
    (label : String) : aggregate parse [] label = none := by
  simp [aggregate]

/-- Claim C4: a record whose timestamp fails to parse is excluded from
the timeline mapping only; the length (total requests), total cost,
average latency, per-model stats, per-tier stats and latency histogram
are exactly those obtained with the timestamp replaced by anything else. -/
theorem claim_C4_bad_timestamp_timeline_only (parse : String → Option PyDateTime)
    (label : String) (pre post : List UsageRecord) (e : UsageRecord)
    (t2 : Option String)
    (h : parse ((e.timestamp.getD "").replace "Z" "+00:00") = none) :
    timeline parse label (pre ++ e :: post) = timeline parse label (pre ++ post) ∧
    (pre ++ e :: post).length = (pre ++ { e with timestamp := t2 } :: post).length ∧
    total_cost (pre ++ e :: post)
      = total_cost (pre ++ { e with timestamp := t2 } :: post) ∧
    avg_latency (pre ++ e :: post)
      = avg_latency (pre ++ { e with timestamp := t2 } :: post) ∧
    models_list (pre ++ e :: post)
      = models_list (pre ++ { e with timestamp := t2 } :: post) ∧
    by_tier (pre ++ e :: post)
      = by_tier (pre ++ { e with timestamp := t2 } :: post) ∧
    lat_buckets (pre ++ e :: post)
      = lat_buckets (pre ++ { e with timestamp := t2 } :: post) ∧
    (∀ p, aggregate parse (pre ++ e :: post) label = some p →
      p.timeline = timeline parse label (pre ++ e :: post)) := by
  refine ⟨?_, ?_, ?_, ?_, ?_, ?_, ?_, ?_⟩
  · simp only [timeline, List.foldl_append, List.foldl_cons]
    congr 1
    simp [tStep, h]
  · simp only [List.length_append, List.length_cons]
  · simp only [total_cost, List.map_append, List.map_cons]
  · simp only [avg_latency, List.map_append, List.map_cons, List.length_append,
      List.length_cons]
  · simp only [models_list, by_model, List.foldl_append, List.foldl_cons]
    rfl
  · simp only [by_tier, List.foldl_append, List.foldl_cons]
  · simp only [lat_buckets, List.foldl_append, List.foldl_cons]
    rfl
  · intro p hp
    exact (aggregate_fields parse _ label p hp).2.2.2.2.1

/-- Record with an absent timestamp used by the C4 witness. -/
def w3 : UsageRecord :=
  ⟨some 3, some 4, some 700, some "x/m2", some "MEDIUM", none, none, none⟩

/-- Concrete instantiation of claim C4: the timestamp-less record `w3`
is dropped from the timeline only. -/
theorem claim_C4_witness :
    timeline pfNone "2024-01-01" ([w1] ++ w3 :: [w2])
      = timeline pfNone "2024-01-01" ([w1] ++ [w2]) ∧
    ([w1] ++ w3 :: [w2]).length
      = ([w1] ++ { w3 with timestamp := some "2024-01-01T00:02:00Z" } :: [w2]).length ∧
    total_cost ([w1] ++ w3 :: [w2])
      = total_cost
          ([w1] ++ { w3 with timestamp := some "2024-01-01T00:02:00Z" } :: [w2]) ∧
    avg_latency ([w1] ++ w3 :: [w2])
      = avg_latency
          ([w1] ++ { w3 with timestamp := some "2024-01-01T00:02:00Z" } :: [w2]) ∧
    models_list ([w1] ++ w3 :: [w2])
      = models_list
          ([w1] ++ { w3 with timestamp := some "2024-01-01T00:02:00Z" } :: [w2]) ∧
    by_tier ([w1] ++ w3 :: [w2])
      = by_tier
          ([w1] ++ { w3 with timestamp := some "2024-01-01T00:02:00Z" } :: [w2]) ∧
    lat_buckets ([w1] ++ w3 :: [w2])
      = lat_buckets
          ([w1] ++ { w3 with timestamp := some "2024-01-01T00:02:00Z" } :: [w2]) ∧
    (∀ p, aggregate pfNone ([w1] ++ w3 :: [w2]) "2024-01-01" = some p →
      p.timeline = timeline pfNone "2024-01-01" ([w1] ++ w3 :: [w2])) :=
  claim_C4_bad_timestamp_timeline_only pfNone "2024-01-01" [w1] [w2] w3
    (some "2024-01-01T00:02:00Z") rfl

/-- Claim C6: a record of non-negative integer latency `n` addresses
exactly the histogram bucket `min (n / 2000) 9`, an index in [0, 9] of
the 10-bucket array; appending such a record increments that bucket and
no other. -/
theorem claim_C6_histogram_saturates (parse : String → Option PyDateTime)
    (label : String) (es : List UsageRecord) (e : UsageRecord) (n : ℕ)
    (h : e.latencyMs.getD 0 = (n : ℚ)) :
    latIdxZ e = ((min (n / 2000) 9 : ℕ) : ℤ) ∧
    0 ≤ latIdxZ e ∧ latIdxZ e ≤ 9 ∧
    (lat_buckets (es ++ [e])).getD (min (n / 2000) 9) 0
      = (lat_buckets es).getD (min (n / 2000) 9) 0 + 1 ∧
    (∀ j, j ≠ min (n / 2000) 9 →
      (lat_buckets (es ++ [e])).getD j 0 = (lat_buckets es).getD j 0) ∧
    (lat_buckets (es ++ [e])).length = 10 ∧
    (∀ p, aggregate parse (es ++ [e]) label = some p →
      p.lat_buckets = lat_buckets (es ++ [e])) := by
  have hidx := latIdxZ_eq e n h
  have hfold : lat_buckets (es ++ [e]) = pyIncrAt (lat_buckets es) (latIdxZ e) := by
    simp [lat_buckets, List.foldl_append]
  have hlen := lat_buckets_length es
  have hk : min (n / 2000) 9 < (lat_buckets es).length := by
    rw [hlen]
    omega
  refine ⟨hidx, ?_, ?_, ?_, ?_, ?_, ?_⟩
  · rw [hidx]
    exact Int.natCast_nonneg _
  · rw [hidx]
    exact_mod_cast min_le_right (n / 2000) 9
  · rw [hfold, hidx]
    exact pyIncrAt_getD_self (lat_buckets es) (min (n / 2000) 9) hk
  · intro j hj
    rw [hfold, hidx]
    exact pyIncrAt_getD_ne (lat_buckets es) (min (n / 2000) 9) j hj
  · exact lat_buckets_length (es ++ [e])
  · intro p hp
    exact (aggregate_fields parse _ label p hp).2.2.2.2.2.1

/-- Record with latency 25000 ms used by the C6 witness. -/
def w25k : UsageRecord :=
  ⟨some 1, some 1, some 25000, some "x/m1", some "SIMPLE", none, none, none⟩

/-- Concrete instantiation of claim C6: latency 25000 ms addresses
bucket `min (25000 / 2000) 9 = 9`. -/
theorem claim_C6_witness :
    latIdxZ w25k = ((min (25000 / 2000) 9 : ℕ) : ℤ) ∧
    0 ≤ latIdxZ w25k ∧ latIdxZ w25k ≤ 9 ∧
    (lat_buckets ([] ++ [w25k])).getD (min (25000 / 2000) 9) 0
      = (lat_buckets []).getD (min (25000 / 2000) 9) 0 + 1 ∧
    (∀ j, j ≠ min (25000 / 2000) 9 →
      (lat_buckets ([] ++ [w25k])).getD j 0 = (lat_buckets []).getD j 0) ∧
    (lat_buckets ([] ++ [w25k])).length = 10 ∧
    (∀ p, aggregate pfNone ([] ++ [w25k]) "2024-01-01" = some p →
      p.lat_buckets = lat_buckets ([] ++ [w25k])) :=
  claim_C6_histogram_saturates pfNone "2024-01-01" [] w25k 25000 rfl

/-- Claim C7: the model stats of `aggregate` are sorted by descending
cost, and rows of equal cost keep the relative order of the unsorted
enumeration, whose order is the first-appearance order of the models in
the input record list. -/
theorem claim_C7_sorted_stable (parse : String → Option PyDateTime)
    (entries : List UsageRecord) (label : String) :
    SortedD (models_list entries) ∧
    (∀ c : ℚ, (models_list entries).filter (fun m => decide (m.cost = c))
      = (mkStats 0 (by_model entries)).filter (fun m => decide (m.cost = c))) ∧
    (mkStats 0 (by_model entries)).map (fun m => m.model)
      = firstSeenModels entries ∧
    (∀ p, aggregate parse entries label = some p →
      p.models = models_list entries) := by
  refine ⟨sortDesc_sorted _, ?_, ?_, ?_⟩
  · intro c
    exact sortDesc_filter (mkStats 0 (by_model entries)) c
  · rw [mkStats_map (fun m => m.model) (fun kv => kv.1) (fun i k v => rfl)]
    exact by_model_keys entries
  · intro p hp
    exact (aggregate_fields parse entries label p hp).2.1

/-- Records of the spec's sort-stability scenario: first-seen order
[c, a, b] with costs [5, 5, 3]. -/
def wc : UsageRecord :=
  ⟨some 5, some 6, some 100, some "c", some "SIMPLE", none, none, none⟩

/-- Second record of the stability scenario (cost 5, ties with `wc`). -/
def wa : UsageRecord :=
  ⟨some 5, some 6, some 100, some "a", some "SIMPLE", none, none, none⟩

/-- Third record of the stability scenario (cost 3). -/
def wb : UsageRecord :=
  ⟨some 3, some 6, some 100, some "b", some "SIMPLE", none, none, none⟩

/-- Concrete instantiation of claim C7 at the spec's tie scenario. -/
theorem claim_C7_witness :
    SortedD (models_list [wc, wa, wb]) ∧
    (∀ c : ℚ, (models_list [wc, wa, wb]).filter (fun m => decide (m.cost = c))
      = (mkStats 0 (by_model [wc, wa, wb])).filter (fun m => decide (m.cost = c))) ∧
    (mkStats 0 (by_model [wc, wa, wb])).map (fun m => m.model)
      = firstSeenModels [wc, wa, wb] ∧
    (∀ p, aggregate pfNone [wc, wa, wb] "2024-01-01" = some p →
      p.models = models_list [wc, wa, wb]) :=
  claim_C7_sorted_stable pfNone [wc, wa, wb] "2024-01-01"

theorem mem_of_getElem2 {α : Type} (l : List α) (i : ℕ) (a : α)
    (h : l[i]? = some a) : a ∈ l := by
  obtain ⟨hlt, rfl⟩ := List.getElem?_eq_some.mp h
  exact List.getElem_mem hlt

/-- Claim C8 as stated is false: with records of models [a, a, b], the
stat of model b carries color slot 1 (its rank among distinct models),
not 2 (its record-list first-appearance index 2 taken mod 5). -/
theorem claim_C8_counterexample :
    ¬ (∀ m ∈ models_list [wa, wa, wb],
        m.color_idx
          = ([wa, wa, wb].findIdx fun e => e.model.getD "unknown" == m.model) % 5) := by
  intro hall
  have hml : models_list [wa, wa, wb]
      = [mkStat 0 "a" ⟨2, 10, 12, [100, 100], 0, 0⟩,
         mkStat 1 "b" ⟨1, 3, 6, [100], 0, 0⟩] := by
    norm_num +decide [models_list, by_model, upsert, mStep, mInit, wa, wb, mkStats,
      sortDesc, insDesc, mkStat]
  have hb := hall (mkStat 1 "b" ⟨1, 3, 6, [100], 0, 0⟩) (by rw [hml]; simp)
  simp only [mkStat] at hb
  norm_num +decide [List.findIdx_cons, wa, wb, MODEL_COLORS] at hb

/-- Claim C8, amended: each ModelStat's color slot is the zero-based
position of its model in the first-appearance-ordered list of distinct
models, taken mod the palette size 5; the slot is assigned before the
cost sort, so the sorted stats carry the same slots. -/
theorem claim_C8_amended_color_slots (parse : String → Option PyDateTime)
    (entries : List UsageRecord) (label : String) :
    MODEL_COLORS.length = 5 ∧
    (firstSeenModels entries).Nodup ∧
    (∀ m ∈ models_list entries, ∃ j,
      (firstSeenModels entries)[j]? = some m.model ∧
      m.color_idx = j % MODEL_COLORS.length) ∧
    (∀ p, aggregate parse entries label = some p →
      p.models = models_list entries) := by
  refine ⟨rfl, firstSeenModels_nodup entries, ?_, ?_⟩
  · intro m hm
    have hm2 : m ∈ mkStats 0 (by_model entries) :=
      (sortDesc_perm (mkStats 0 (by_model entries))).mem_iff.mp hm
    obtain ⟨j, k, v, hj, rfl⟩ := mkStats_mem 0 (by_model entries) m hm2
    refine ⟨j, ?_, ?_⟩
    · rw [← by_model_keys, List.getElem?_map, hj]
      rfl
    · simp [mkStat]
  · intro p hp
    exact (aggregate_fields parse entries label p hp).2.1

/-- Concrete instantiation of the amended claim C8 at the [a, a, b]
record set. -/
theorem claim_C8_amended_witness :
    MODEL_COLORS.length = 5 ∧
    (firstSeenModels [wa, wa, wb]).Nodup ∧
    (∀ m ∈ models_list [wa, wa, wb], ∃ j,
      (firstSeenModels [wa, wa, wb])[j]? = some m.model ∧
      m.color_idx = j % MODEL_COLORS.length) ∧
    (∀ p, aggregate pfNone [wa, wa, wb] "2024-01-01" = some p →
      p.models = models_list [wa, wa, wb]) :=
  claim_C8_amended_color_slots pfNone [wa, wa, wb] "2024-01-01"

/-- Claim C9: the chart timeline labels are the ascending sort of the
distinct bucket keys of the period, and each model's series is aligned
to them, holding exactly 0 at every bucket where the model has no
accumulated cost. -/
theorem claim_C9_timeline_densified (parse : String → Option PyDateTime)
    (entries : List UsageRecord) (label : String) (tl : Timeline)
    (htl : tl = timeline parse label entries) :
    List.Pairwise (fun a b => a ≤ b) (all_times tl) ∧
    (all_times tl).Nodup ∧
    List.Perm (all_times tl) (tl.map Prod.fst) ∧
    (∀ model, (tl_vals tl model).length = (all_times tl).length) ∧
    (∀ (model : String) (i : ℕ) (t : String), (all_times tl)[i]? = some t →
      ((List.lookup t tl).getD []).lookup model = none →
      (tl_vals tl model)[i]? = some 0) ∧
    (∀ p, aggregate parse entries label = some p → p.timeline = tl) := by
  refine ⟨sortStr_sorted _, ?_, sortStr_perm _, ?_, ?_, ?_⟩
  · subst htl
    exact ((sortStr_perm _).nodup_iff).mpr (timeline_keys_nodup parse label entries)
  · intro model
    simp [tl_vals]
  · intro model i t hit hnone
    simp only [tl_vals, List.getElem?_map, hit, Option.map_some']
    rw [hnone]
    simp [pyRound_zero]
  · intro p hp
    rw [htl]
    exact (aggregate_fields parse entries label p hp).2.2.2.2.1

/-- Concrete instantiation of claim C9 at the spec's two-bucket
scenario. -/
theorem claim_C9_witness :
    List.Pairwise (fun a b => a ≤ b)
      (all_times (timeline pfDay "2024-01-01" [w1, w2, wa])) ∧
    (all_times (timeline pfDay "2024-01-01" [w1, w2, wa])).Nodup ∧
    List.Perm (all_times (timeline pfDay "2024-01-01" [w1, w2, wa]))
      ((timeline pfDay "2024-01-01" [w1, w2, wa]).map Prod.fst) ∧
    (∀ model, (tl_vals (timeline pfDay "2024-01-01" [w1, w2, wa]) model).length
      = (all_times (timeline pfDay "2024-01-01" [w1, w2, wa])).length) ∧
    (∀ (model : String) (i : ℕ) (t : String),
      (all_times (timeline pfDay "2024-01-01" [w1, w2, wa]))[i]? = some t →
      ((List.lookup t (timeline pfDay "2024-01-01" [w1, w2, wa])).getD
          []).lookup model = none →
      (tl_vals (timeline pfDay "2024-01-01" [w1, w2, wa]) model)[i]? = some 0) ∧
    (∀ p, aggregate pfDay [w1, w2, wa] "2024-01-01" = some p →
      p.timeline = timeline pfDay "2024-01-01" [w1, w2, wa]) :=
  claim_C9_timeline_densified pfDay [w1, w2, wa] "2024-01-01"
    (timeline pfDay "2024-01-01" [w1, w2, wa]) rfl

/-- Claim C10: when every record has non-negative cost and baseline,
every per-model `savings_pct` lies in [0, 100] although the code applies
no explicit clamp to it: the per-model savings is `max 0 (baseline -
cost)` before the division. -/
theorem claim_C10_model_savings_pct_bounded (parse : String → Option PyDateTime)
    (entries : List UsageRecord) (label : String)
    (h : ∀ e ∈ entries, 0 ≤ e.cost.getD 0 ∧ 0 ≤ e.baselineCost.getD 0) :
    (∀ m ∈ models_list entries, 0 ≤ m.savings_pct ∧ m.savings_pct ≤ 100) ∧
    (∀ p, aggregate parse entries label = some p →
      p.models = models_list entries) := by
  constructor
  · intro m hm
    have hm2 : m ∈ mkStats 0 (by_model entries) :=
      (sortDesc_perm (mkStats 0 (by_model entries))).mem_iff.mp hm
    obtain ⟨j, k, v, hj, rfl⟩ := mkStats_mem 0 (by_model entries) m hm2
    have hv : 0 ≤ v.cost :=
      by_model_cost_nonneg entries (fun e he => (h e he).1) (k, v)
        (mem_of_getElem2 (by_model entries) j (k, v) hj)
    simp only [mkStat]
    by_cases hbv : 0 < v.baseline
    · rw [if_pos hbv]
      constructor
      · exact mul_nonneg (div_nonneg (le_max_left 0 _) hbv.le) (by norm_num)
      · have hle : max 0 (v.baseline - v.cost) ≤ v.baseline :=
          max_le hbv.le (sub_le_self _ hv)
        have h2 : max 0 (v.baseline - v.cost) / v.baseline ≤ 1 :=
          (div_le_one hbv).mpr hle
        calc max 0 (v.baseline - v.cost) / v.baseline * 100
            ≤ 1 * 100 := mul_le_mul_of_nonneg_right h2 (by norm_num)
          _ = 100 := by norm_num
    · rw [if_neg hbv]
      norm_num
  · intro p hp
    exact (aggregate_fields parse entries label p hp).2.1

/-- Concrete instantiation of claim C10 at the spec's scenario records. -/
theorem claim_C10_witness :
    (∀ m ∈ models_list [w1, w2], 0 ≤ m.savings_pct ∧ m.savings_pct ≤ 100) ∧
    (∀ p, aggregate pfDay [w1, w2] "2024-01-01" = some p →
      p.models = models_list [w1, w2]) :=
  claim_C10_model_savings_pct_bounded pfDay [w1, w2] "2024-01-01"
    (by
      intro e he
      simp only [List.mem_cons, List.not_mem_nil, or_false] at he
      rcases he with rfl | rfl <;> constructor <;> norm_num [w1, w2])

end BlockRun
